import Mathlib

/-!
# Verification of the neptune-client local-queue synchronization engine

This file is a shallow embedding of `neptune/alpha/sync.py` — the durable
local operation queue and synchronization engine — together with proofs of
the behavioural properties claimed of it.

The repository's `DiskQueue` and `SyncOffsetFile` classes are not among the
provided source files (only `sync.py`, which calls them, is).  They are
therefore modelled from the specification:

* `SyncOffsetFile.read()` yields the persisted integer, or absence; we model
  the persisted state as an `Option Nat` (spec §4.2: `read() -> integer |
  absent`).
* `DiskQueue.get_batch(max_count)` yields up to `max_count` records from the
  current cursor in order, advancing the cursor; the queue may yield fewer
  records per call than requested (spec §4.1: "returns up to `max_count`
  records ... preserving version order").  We model the per-call yield bound
  by an explicit capacity parameter `cap`, so a read returns
  `min max_count cap` records.

Everything else is translated directly from `sync.py`.
-/

/-- An Operation Record: a versioned unit of mutation (`VersionedOperation`
in the source).  `version` is the ordering/acknowledgment key; `op` is the
opaque payload. -/
structure VersionedOperation where
  version : Nat
  op : Nat
deriving DecidableEq, Repr

/-- Strict version order between two records; a run's queue is required by
the spec to be strictly increasing in `version`. -/
def VLt (a b : VersionedOperation) : Prop := a.version < b.version

instance : DecidableRel VLt := fun a b => Nat.decLt a.version b.version

/-- `batch[-1].version` of the source: version of the last record of a list,
0 for the empty list (the empty case is never reached by the loop). -/
def lastVersionOf (l : List VersionedOperation) : Nat :=
  match l.getLast? with
  | some x => x.version
  | none => 0

/-- The `for i, operation in enumerate(batch): if operation.version >
sync_offset: batch = batch[i:]; break` loop of `sync_experiment`: find the
first suffix starting with a record of version above `offset`; `none` when
no record qualifies (then the loop ends without `break` and `batch` is left
unchanged). -/
def sliceFromAux (offset : Nat) : List VersionedOperation → Option (List VersionedOperation)
  | [] => none
  | x :: rest => if offset < x.version then some (x :: rest) else sliceFromAux offset rest

/-- The value of `batch` after the slicing loop: the found suffix, or the
original list if no record has version above `offset`. -/
def sliceFrom (offset : Nat) (l : List VersionedOperation) : List VersionedOperation :=
  (sliceFromAux offset l).getD l

/-- The sub-batch dispatched to the backend for a read batch `b :: bs`:
the whole batch when `batch[0].version > sync_offset`, otherwise the sliced
suffix (the `pass` and `else` branches of `sync_experiment`). -/
def sendSlice (offset : Nat) (b : VersionedOperation) (bs : List VersionedOperation) :
    List VersionedOperation :=
  if offset < b.version then b :: bs else sliceFrom offset (b :: bs)

/-- Observable trace of one `sync_experiment` invocation: the batches handed
to `backend.execute_operations` in order, the successive values written to
the sync offset file in order, and whether the invocation ran to normal
completion (`completed = false` means an exception from
`execute_operations` aborted it). -/
structure SyncTrace where
  calls : List (List VersionedOperation)
  writes : List Nat
  completed : Bool
deriving DecidableEq, Repr

/-- The `while True` loop of `sync_experiment`.  `lim` is the `1000` passed
to `get_batch`; `cap` is the modelled per-call yield capacity of the disk
queue; `ok i` tells whether the `i`-th `execute_operations` call succeeds
(`false` models it raising); `remaining` is the queue content from the
read cursor onward; `offset` is the in-memory `sync_offset`; `callIdx`
counts backend calls made so far.  `fuel` bounds the iteration count; every
theorem below supplies `remaining.length < fuel`, which makes the fuel-0
branch unreachable. -/
def syncLoop (lim cap : Nat) (ok : Nat → Bool) :
    Nat → List VersionedOperation → Nat → Nat → SyncTrace
  | 0, _, _, _ => ⟨[], [], false⟩
  | fuel + 1, remaining, offset, callIdx =>
    match remaining.take (min lim cap) with
    | [] => ⟨[], [], true⟩
    | b :: bs =>
      if lastVersionOf (b :: bs) ≤ offset ∧ ¬ offset < b.version then
        syncLoop lim cap ok fuel (remaining.drop (min lim cap)) offset callIdx
      else if ok callIdx then
        let t := syncLoop lim cap ok fuel (remaining.drop (min lim cap))
          (lastVersionOf (sendSlice offset b bs)) (callIdx + 1)
        ⟨sendSlice offset b bs :: t.calls,
          lastVersionOf (sendSlice offset b bs) :: t.writes, t.completed⟩
      else
        ⟨[sendSlice offset b bs], [], false⟩

/-- `sync_experiment(path, name)`: reads the persisted offset
(`sync_offset_file.read() or 0`), then drains the queue.  `queue` is the
full queue content, `file` the persisted sync-offset state. -/
def sync_experiment (lim cap : Nat) (ok : Nat → Bool)
    (queue : List VersionedOperation) (file : Option Nat) : SyncTrace :=
  syncLoop lim cap ok (queue.length + 1) queue (file.getD 0) 0

/-- The persisted sync-offset state after an invocation with trace `t`
starting from persisted state `file`: the last value written, or the
original state when nothing was written. -/
def persistedAfter (file : Option Nat) (t : SyncTrace) : Option Nat :=
  match t.writes.getLast? with
  | some w => some w
  | none => file

/-- The `while True: operation = disk_queue.get(); ...` loop of
`is_experiment_synced`: the last record of the queue, `none` when empty. -/
def lastOperation (queue : List VersionedOperation) : Option VersionedOperation :=
  queue.foldl (fun _ op => some op) none

/-- `is_experiment_synced(experiment_path)` from the source: `False` when
the offset file is absent; otherwise `True` iff the queue is empty or the
persisted offset is at least the version of its last record. -/
def is_experiment_synced (file : Option Nat) (queue : List VersionedOperation) : Bool :=
  match file with
  | none => false
  | some sync_offset =>
    match lastOperation queue with
    | none => true
    | some prev => decide (prev.version ≤ sync_offset)

/-- The synchronized-detection predicate exactly as the specification words
it: "true iff the Sync Offset equals the version of the last record in the
Disk Queue, or the queue is empty and no offset exists".  Written from the
spec, to be compared against `is_experiment_synced` from the source. -/
def is_synchronized_claim (file : Option Nat) (queue : List VersionedOperation) : Bool :=
  (match lastOperation queue with
    | some l => decide (file = some l.version)
    | none => false) || (queue.isEmpty && file.isNone)

/-- The `Experiment` dataclass of the source. -/
structure ExperimentRec where
  uuid : String
  shortId : String
  organizationName : String
  projectName : String
deriving DecidableEq, Repr

/-- The backend `Project` record (uuid, workspace, name) as used by
`register_offline_experiment`. -/
structure ProjectRec where
  uuid : String
  workspace : String
  name : String
deriving DecidableEq, Repr

/-- `register_offline_experiment(project)`: asks the backend for a fresh
experiment (`created` is the backend reply — `none` models
`create_experiment` raising, which the source catches, reports, and turns
into `None`). -/
def register_offline_experiment (project : ProjectRec)
    (created : Option (String × String)) : Option ExperimentRec :=
  match created with
  | none => none
  | some (u, sid) => some ⟨u, sid, project.workspace, project.name⟩

/-- Outcome of `register_offline_experiments`: either normal completion
with the created experiments and the directory moves performed, or an
uncaught `AttributeError` (from evaluating `experiment.uuid` when
`register_offline_experiment` returned `None`), with the moves performed
before the crash. -/
inductive RegisterResult where
  | ok (exps : List ExperimentRec) (moves : List (String × String))
  | crashed (movesDone : List (String × String))
deriving DecidableEq, Repr

/-- `register_offline_experiments(base_path, project, offline_experiment_ids)`
from the source.  `create n` is the backend reply to the `n`-th
`create_experiment` call.  Note that the source dereferences
`experiment.uuid` without checking for `None`, so one failed creation
crashes the whole loop. -/
def register_offline_experiments (project : ProjectRec)
    (create : Nat → Option (String × String)) :
    List String → Nat → RegisterResult
  | [], _ => .ok [] []
  | id :: rest, n =>
    match register_offline_experiment project (create n) with
    | none => .crashed []
    | some exp =>
      match register_offline_experiments project create rest (n + 1) with
      | .ok exps moves => .ok (exp :: exps) ((id, exp.uuid) :: moves)
      | .crashed moves => .crashed ((id, exp.uuid) :: moves)

/-- The reply of `backend.leaderboard_client.api.getExperiment` for one
identifier: either the experiment record, or an `HTTPError` with a status
code. -/
inductive LookupOutcome where
  | found (e : ExperimentRec)
  | httpError (status : Nat)
deriving DecidableEq, Repr

/-- What `get_experiment(experiment_id)` produces: the optional result, and
the warning printed on `HTTPError` — `(status_code, skipping)` where
`skipping` is true exactly for 401/403/404 ("Skipping experiment.") and
false otherwise ("Please try again later ..."). -/
structure GetExpResult where
  result : Option ExperimentRec
  warning : Option (Nat × Bool)
deriving DecidableEq, Repr

/-- `get_experiment(experiment_id)` from the source: catches `HTTPError`,
reports it, and returns `None`; never re-raises. -/
def get_experiment (backendLookup : String → LookupOutcome)
    (experiment_id : String) : GetExpResult :=
  match backendLookup experiment_id with
  | .found e => ⟨some e, none⟩
  | .httpError code =>
    if code = 401 ∨ code = 403 ∨ code = 404 then ⟨none, some (code, true)⟩
    else ⟨none, some (code, false)⟩

/-- `get_qualified_name(experiment)` from the source. -/
def get_qualified_name (e : ExperimentRec) : String :=
  e.organizationName ++ "/" ++ e.projectName ++ "/" ++ e.shortId

/-- `references_offline_experiment(base_path, name)` from the source: the
name parses as a UUID and a directory of that name exists under the
offline namespace.  `isUUID` models `is_valid_uuid` (a stdlib parse);
`offlineDirExists` models the `(base_path / OFFLINE_DIRECTORY / name).is_dir()`
check. -/
def references_offline_experiment (isUUID : String → Bool)
    (offlineDirExists : String → Bool) (name : String) : Bool :=
  isUUID name && offlineDirExists name

/-- What happens to one name inside `sync_selected_registered_experiments`. -/
inductive RegSyncAction where
  | synced
  | warnedMissingPath
  | skippedLookupFailed
deriving DecidableEq, Repr

/-- The per-name body of the `sync_selected_registered_experiments` loop:
look the name up; a failed lookup (absorbed by `get_experiment`) skips the
name; a missing local directory warns and skips; otherwise the run is
synchronized. -/
def regAction (backendLookup : String → LookupOutcome)
    (dirExists : String → Bool) (name : String) : RegSyncAction :=
  match (get_experiment backendLookup name).result with
  | none => .skippedLookupFailed
  | some exp => if dirExists exp.uuid then .synced else .warnedMissingPath

/-- `sync_selected_registered_experiments(path, names)` from the source:
each name is processed independently, in order. -/
def sync_selected_registered_experiments (backendLookup : String → LookupOutcome)
    (dirExists : String → Bool) (names : List String) :
    List (String × RegSyncAction) :=
  names.map (fun name => (name, regAction backendLookup dirExists name))

/-- Observable outcome of `sync_selected_experiments`: which names were
routed to offline registration, the registration outcome (when attempted),
the registered-run synchronization pass, and whether an uncaught exception
from registration aborted the invocation before that pass. -/
structure SelectedSyncResult where
  offlineRouted : List String
  registration : Option RegisterResult
  registeredPass : List (String × RegSyncAction)
  crashed : Bool
deriving DecidableEq, Repr

/-- `sync_selected_experiments(base_path, project_name, experiment_names)`
from the source: partition the names by `references_offline_experiment`,
register the offline ones first (when any exist and a project is
available), then run the registered-run pass over the remaining names plus
the qualified names of the freshly registered runs.  `project = none`
models `get_project` returning `None` (no project name, or project not
found). -/
def sync_selected_experiments (isUUID offlineDirExists : String → Bool)
    (project : Option ProjectRec) (create : Nat → Option (String × String))
    (backendLookup : String → LookupOutcome) (dirExists : String → Bool)
    (names : List String) : SelectedSyncResult :=
  let f := references_offline_experiment isUUID offlineDirExists
  let offline_ids := names.filter f
  let others := names.filter (fun n => ! f n)
  if offline_ids.isEmpty then
    ⟨offline_ids, none,
      sync_selected_registered_experiments backendLookup dirExists others, false⟩
  else
    match project with
    | none =>
      ⟨offline_ids, none,
        sync_selected_registered_experiments backendLookup dirExists others, false⟩
    | some p =>
      match register_offline_experiments p create offline_ids 0 with
      | .crashed moves => ⟨offline_ids, some (.crashed moves), [], true⟩
      | .ok exps moves =>
        ⟨offline_ids, some (.ok exps moves),
          sync_selected_registered_experiments backendLookup dirExists
            (others ++ exps.map get_qualified_name), false⟩

/-- On-disk content of one run directory: its disk queue and its sync
offset file. -/
structure RunDir where
  queue : List VersionedOperation
  offsetFile : Option Nat
deriving DecidableEq, Repr

/-- The two namespaces of the on-disk layout (spec §6): the offline
namespace and the top-level registered namespace, each mapping a directory
name to its content when present. -/
structure FileSystem where
  offline : String → Option RunDir
  registered : String → Option RunDir

/-- `move_offline_experiment(base_path, offline_uuid, server_uuid)` from
the source: `(base_path / OFFLINE_DIRECTORY / offline_uuid).rename(base_path
/ server_uuid)` — a single filesystem rename, modelled as the atomic
transfer of one directory entry from the offline namespace to the
registered namespace, content untouched. -/
def move_offline_experiment (fs : FileSystem) (offline_uuid server_uuid : String) :
    FileSystem :=
  { offline := fun n => if n = offline_uuid then none else fs.offline n
    registered := fun n => if n = server_uuid then fs.offline offline_uuid
      else fs.registered n }

/-- What happens to one directory inside `sync_all_registered_experiments`. -/
inductive AllSyncAction where
  | notSelected
  | lookupSkipped (warning : Option (Nat × Bool))
  | synced (qualifiedName : String)
deriving DecidableEq, Repr

/-- `sync_all_registered_experiments(path)` from the source: iterate over
the directories under the base path; a directory is considered only when
its name is a valid UUID and the run is not already synchronized; then the
run is looked up with `get_experiment`, and synchronized only when the
lookup succeeds — a failed lookup skips the run (the warning was printed by
`get_experiment`) and the loop continues. -/
def sync_all_registered_experiments (isUUID : String → Bool)
    (backendLookup : String → LookupOutcome)
    (dirs : List (String × RunDir)) : List (String × AllSyncAction) :=
  dirs.map (fun nd =>
    (nd.1,
      if isUUID nd.1 && ! is_experiment_synced nd.2.offsetFile nd.2.queue then
        match (get_experiment backendLookup nd.1).result with
        | some e => .synced (get_qualified_name e)
        | none => .lookupSkipped (get_experiment backendLookup nd.1).warning
      else .notSelected))

/-- C10: `sync_experiment` behaves identically — same backend calls, same
offset writes, same completion — whether the sync-offset file is absent or
persisted with the value 0, because the starting offset is computed as the
read value or 0 (`sync_offset_file.read() or 0`). -/
theorem sync_absent_offset_eq_zero_offset (lim cap : Nat) (ok : Nat → Bool)
    (q : List VersionedOperation) :
    sync_experiment lim cap ok q none = sync_experiment lim cap ok q (some 0) := rfl

/-- C6: with queued records of versions `[1,2,3,4,5]`, no prior offset, and
a queue yielding batches of 2, `sync_experiment` makes exactly 3 backend
calls receiving `[1,2]`, `[3,4]`, `[5]` — increasing version order, no
version repeated — and writes the offset progression `2, 4, 5` (starting
from 0), completing normally. -/
theorem sync_batch_scenario :
    sync_experiment 1000 2 (fun _ => true)
      [⟨1, 1⟩, ⟨2, 2⟩, ⟨3, 3⟩, ⟨4, 4⟩, ⟨5, 5⟩] none
      = ⟨[[⟨1, 1⟩, ⟨2, 2⟩], [⟨3, 3⟩, ⟨4, 4⟩], [⟨5, 5⟩]], [2, 4, 5], true⟩ := by
  rfl

/-- C2 (code bug): when the backend's create call fails for the first of
two offline runs, `register_offline_experiments` does not skip that run and
continue — it crashes with an uncaught `AttributeError` (`experiment.uuid`
on `None`), so nothing is registered or moved, even though creation of the
second run would have succeeded (`create 1` is a success here). -/
theorem register_batch_crashes_on_first_failure :
    register_offline_experiments ⟨"proj-uuid", "ws", "proj"⟩
      (fun n => if n = 0 then none else some ("srv-uuid", "S-1"))
      ["offline-a", "offline-b"] 0
      = .crashed [] := by
  rfl

/-! ## Helper lemmas about the queue order and the slicing loop -/

theorem lastVersionOf_cons_cons (b c : VersionedOperation) (cs : List VersionedOperation) :
    lastVersionOf (b :: c :: cs) = lastVersionOf (c :: cs) := by
  simp [lastVersionOf, List.getLast?_cons_cons]

theorem lastVersionOf_mem : ∀ (b : VersionedOperation) (bs : List VersionedOperation),
    ∃ x ∈ b :: bs, x.version = lastVersionOf (b :: bs)
  | b, [] => ⟨b, by simp, by simp [lastVersionOf]⟩
  | b, c :: cs => by
    obtain ⟨x, hx, hv⟩ := lastVersionOf_mem c cs
    exact ⟨x, List.mem_cons_of_mem b hx, by rw [lastVersionOf_cons_cons]; exact hv⟩

theorem le_lastVersionOf : ∀ (b : VersionedOperation) (bs : List VersionedOperation),
    (b :: bs).Pairwise VLt → ∀ x ∈ b :: bs, x.version ≤ lastVersionOf (b :: bs)
  | b, [], _, x, hx => by
    rcases List.mem_cons.mp hx with rfl | h'
    · simp [lastVersionOf]
    · simp at h'
  | b, c :: cs, hp, x, hx => by
    rw [lastVersionOf_cons_cons]
    rcases List.mem_cons.mp hx with rfl | hx'
    · have hbc : x.version < c.version :=
        (List.pairwise_cons.mp hp).1 c (List.mem_cons_self c cs)
      have hcle := le_lastVersionOf c cs (List.pairwise_cons.mp hp).2 c
        (List.mem_cons_self c cs)
      omega
    · exact le_lastVersionOf c cs (List.pairwise_cons.mp hp).2 x hx'

theorem sliceFromAux_eq_filter (offset : Nat) :
    ∀ (l : List VersionedOperation), l.Pairwise VLt →
      (∃ x ∈ l, offset < x.version) →
      sliceFromAux offset l = some (l.filter (fun op => decide (offset < op.version)))
  | [], _, hex => by simp at hex
  | x :: rest, hp, hex => by
    by_cases hx : offset < x.version
    · rw [sliceFromAux, if_pos hx]
      have hall : ∀ a ∈ rest, (fun op => decide (offset < op.version)) a = true := by
        intro a ha
        have hxa : x.version < a.version := (List.pairwise_cons.mp hp).1 a ha
        simp only [decide_eq_true_eq]
        omega
      rw [List.filter_cons_of_pos (by simp [hx]), List.filter_eq_self.mpr hall]
    · rw [sliceFromAux, if_neg hx]
      have hex' : ∃ a ∈ rest, offset < a.version := by
        obtain ⟨a, ha, hav⟩ := hex
        rcases List.mem_cons.mp ha with rfl | h'
        · exact absurd hav hx
        · exact ⟨a, h', hav⟩
      rw [sliceFromAux_eq_filter offset rest (List.pairwise_cons.mp hp).2 hex',
        List.filter_cons_of_neg (by simp [hx])]

theorem sliceFromAux_getLast? (offset : Nat) :
    ∀ (l s : List VersionedOperation), sliceFromAux offset l = some s →
      s.getLast? = l.getLast?
  | [], s, h => by simp [sliceFromAux] at h
  | x :: rest, s, h => by
    rw [sliceFromAux] at h
    by_cases hx : offset < x.version
    · rw [if_pos hx] at h
      injection h with h
      rw [← h]
    · rw [if_neg hx] at h
      cases rest with
      | nil => simp [sliceFromAux] at h
      | cons c cs =>
        rw [sliceFromAux_getLast? offset (c :: cs) s h, List.getLast?_cons_cons]

theorem lastVersionOf_sendSlice (offset : Nat) (b : VersionedOperation)
    (bs : List VersionedOperation) :
    lastVersionOf (sendSlice offset b bs) = lastVersionOf (b :: bs) := by
  rw [sendSlice]
  by_cases hb : offset < b.version
  · rw [if_pos hb]
  · rw [if_neg hb, sliceFrom]
    cases haux : sliceFromAux offset (b :: bs) with
    | none => rfl
    | some s =>
      simp only [Option.getD_some]
      rw [lastVersionOf, lastVersionOf, sliceFromAux_getLast? offset _ s haux]

theorem sendSlice_eq_filter (offset : Nat) (b : VersionedOperation)
    (bs : List VersionedOperation) (hp : (b :: bs).Pairwise VLt)
    (hlast : offset < lastVersionOf (b :: bs)) :
    sendSlice offset b bs = (b :: bs).filter (fun op => decide (offset < op.version)) := by
  rw [sendSlice]
  by_cases hb : offset < b.version
  · rw [if_pos hb]
    symm
    apply List.filter_eq_self.mpr
    intro a ha
    rcases List.mem_cons.mp ha with rfl | h'
    · simp [hb]
    · have hba : b.version < a.version := (List.pairwise_cons.mp hp).1 a h'
      simp only [decide_eq_true_eq]
      omega
  · rw [if_neg hb, sliceFrom]
    have hex : ∃ x ∈ b :: bs, offset < x.version := by
      obtain ⟨x, hx, hv⟩ := lastVersionOf_mem b bs
      exact ⟨x, hx, by omega⟩
    rw [sliceFromAux_eq_filter offset _ hp hex]
    rfl

theorem dispatch_offset_lt_last (offset : Nat) (b : VersionedOperation)
    (bs : List VersionedOperation) (hp : (b :: bs).Pairwise VLt)
    (hcond : ¬ (lastVersionOf (b :: bs) ≤ offset ∧ ¬ offset < b.version)) :
    offset < lastVersionOf (b :: bs) := by
  have hble := le_lastVersionOf b bs hp b (List.mem_cons_self b bs)
  by_cases h1 : offset < lastVersionOf (b :: bs)
  · exact h1
  · exfalso
    exact hcond ⟨by omega, fun hb => by omega⟩

/-! ## Step equations for the synchronization loop -/

theorem syncLoop_nil (lim cap : Nat) (ok : Nat → Bool) (fuel : Nat)
    (remaining : List VersionedOperation) (offset callIdx : Nat)
    (hb : remaining.take (min lim cap) = []) :
    syncLoop lim cap ok (fuel + 1) remaining offset callIdx = ⟨[], [], true⟩ := by
  simp only [syncLoop]
  rw [hb]

theorem syncLoop_continue (lim cap : Nat) (ok : Nat → Bool) (fuel : Nat)
    (remaining : List VersionedOperation) (offset callIdx : Nat)
    (b : VersionedOperation) (bs : List VersionedOperation)
    (hb : remaining.take (min lim cap) = b :: bs)
    (hcond : lastVersionOf (b :: bs) ≤ offset ∧ ¬ offset < b.version) :
    syncLoop lim cap ok (fuel + 1) remaining offset callIdx
      = syncLoop lim cap ok fuel (remaining.drop (min lim cap)) offset callIdx := by
  simp only [syncLoop]
  rw [hb]
  simp only [if_pos hcond]

theorem syncLoop_dispatch_ok (lim cap : Nat) (ok : Nat → Bool) (fuel : Nat)
    (remaining : List VersionedOperation) (offset callIdx : Nat)
    (b : VersionedOperation) (bs : List VersionedOperation)
    (hb : remaining.take (min lim cap) = b :: bs)
    (hcond : ¬ (lastVersionOf (b :: bs) ≤ offset ∧ ¬ offset < b.version))
    (hok : ok callIdx = true) :
    syncLoop lim cap ok (fuel + 1) remaining offset callIdx
      = ⟨sendSlice offset b bs ::
            (syncLoop lim cap ok fuel (remaining.drop (min lim cap))
              (lastVersionOf (sendSlice offset b bs)) (callIdx + 1)).calls,
          lastVersionOf (sendSlice offset b bs) ::
            (syncLoop lim cap ok fuel (remaining.drop (min lim cap))
              (lastVersionOf (sendSlice offset b bs)) (callIdx + 1)).writes,
          (syncLoop lim cap ok fuel (remaining.drop (min lim cap))
            (lastVersionOf (sendSlice offset b bs)) (callIdx + 1)).completed⟩ := by
  simp only [syncLoop]
  rw [hb]
  simp only [if_neg hcond, hok, if_pos]

theorem syncLoop_dispatch_fail (lim cap : Nat) (ok : Nat → Bool) (fuel : Nat)
    (remaining : List VersionedOperation) (offset callIdx : Nat)
    (b : VersionedOperation) (bs : List VersionedOperation)
    (hb : remaining.take (min lim cap) = b :: bs)
    (hcond : ¬ (lastVersionOf (b :: bs) ≤ offset ∧ ¬ offset < b.version))
    (hok : ok callIdx = false) :
    syncLoop lim cap ok (fuel + 1) remaining offset callIdx
      = ⟨[sendSlice offset b bs], [], false⟩ := by
  simp only [syncLoop]
  rw [hb]
  simp only [if_neg hcond, hok]
  rfl

theorem take_cons_facts {lim cap : Nat} {remaining : List VersionedOperation}
    {b : VersionedOperation} {bs : List VersionedOperation}
    (hb : remaining.take (min lim cap) = b :: bs) :
    remaining = (b :: bs) ++ remaining.drop (min lim cap) ∧
    (remaining.drop (min lim cap)).length < remaining.length := by
  constructor
  · conv_lhs => rw [← List.take_append_drop (min lim cap) remaining]
    rw [hb]
  · have h1 : remaining ≠ [] := by
      intro h; rw [h] at hb; simp at hb
    have h2 : min lim cap ≠ 0 := by
      intro h; rw [h] at hb; simp at hb
    rw [List.length_drop]
    have h3 : remaining.length ≠ 0 := by
      intro h; exact h1 (List.length_eq_zero.mp h)
    omega

/-! ## Main loop invariants -/

theorem chain_lt_all : ∀ {l : List Nat} {a : Nat},
    List.Chain' (· < ·) (a :: l) → ∀ x ∈ l, a < x
  | [], _, _, x, hx => by simp at hx
  | b :: l, a, h, x, hx => by
    rw [List.chain'_cons] at h
    rcases List.mem_cons.mp hx with rfl | hx'
    · exact h.1
    · exact lt_trans h.1 (chain_lt_all h.2 x hx')

theorem mem_of_getLast?_nat : ∀ {l : List Nat} {a : Nat}, l.getLast? = some a → a ∈ l
  | [], a, h => by simp at h
  | [x], a, h => by
    simp at h
    simp [h]
  | x :: y :: ys, a, h => by
    rw [List.getLast?_cons_cons] at h
    exact List.mem_cons_of_mem x (mem_of_getLast?_nat h)

theorem syncLoop_writes_chain (lim cap : Nat) (ok : Nat → Bool) :
    ∀ (fuel : Nat) (remaining : List VersionedOperation) (offset callIdx : Nat),
      remaining.length < fuel → remaining.Pairwise VLt →
      List.Chain' (· < ·)
        (offset :: (syncLoop lim cap ok fuel remaining offset callIdx).writes)
  | 0, remaining, offset, callIdx, hf, _ => by omega
  | fuel + 1, remaining, offset, callIdx, hf, hp => by
    cases hb : remaining.take (min lim cap) with
    | nil =>
      rw [syncLoop_nil lim cap ok fuel remaining offset callIdx hb]
      simp
    | cons b bs =>
      obtain ⟨hsplit, hlen⟩ := take_cons_facts hb
      have hrest_p : (remaining.drop (min lim cap)).Pairwise VLt := by
        rw [hsplit] at hp
        exact (List.pairwise_append.mp hp).2.1
      have hbatch_p : (b :: bs).Pairwise VLt := by
        rw [hsplit] at hp
        exact (List.pairwise_append.mp hp).1
      have hflen : (remaining.drop (min lim cap)).length < fuel := by omega
      by_cases hcond : lastVersionOf (b :: bs) ≤ offset ∧ ¬ offset < b.version
      · rw [syncLoop_continue lim cap ok fuel remaining offset callIdx b bs hb hcond]
        exact syncLoop_writes_chain lim cap ok fuel _ offset callIdx hflen hrest_p
      · have hlt : offset < lastVersionOf (b :: bs) :=
          dispatch_offset_lt_last offset b bs hbatch_p hcond
        have hw : lastVersionOf (sendSlice offset b bs) = lastVersionOf (b :: bs) :=
          lastVersionOf_sendSlice offset b bs
        cases hok : ok callIdx with
        | true =>
          rw [syncLoop_dispatch_ok lim cap ok fuel remaining offset callIdx b bs hb
            hcond hok]
          have htail := syncLoop_writes_chain lim cap ok fuel
            (remaining.drop (min lim cap)) (lastVersionOf (sendSlice offset b bs))
            (callIdx + 1) hflen hrest_p
          rw [List.chain'_cons]
          exact ⟨by omega, htail⟩
        | false =>
          rw [syncLoop_dispatch_fail lim cap ok fuel remaining offset callIdx b bs hb
            hcond hok]
          simp

theorem syncLoop_calls_writes_count (lim cap : Nat) (ok : Nat → Bool) :
    ∀ (fuel : Nat) (remaining : List VersionedOperation) (offset callIdx : Nat),
      remaining.length < fuel →
      (syncLoop lim cap ok fuel remaining offset callIdx).completed = false →
      (syncLoop lim cap ok fuel remaining offset callIdx).calls.length
        = (syncLoop lim cap ok fuel remaining offset callIdx).writes.length + 1
  | 0, remaining, offset, callIdx, hf, _ => by omega
  | fuel + 1, remaining, offset, callIdx, hf, hcompl => by
    cases hb : remaining.take (min lim cap) with
    | nil =>
      rw [syncLoop_nil lim cap ok fuel remaining offset callIdx hb] at hcompl
      simp at hcompl
    | cons b bs =>
      obtain ⟨hsplit, hlen⟩ := take_cons_facts hb
      have hflen : (remaining.drop (min lim cap)).length < fuel := by omega
      by_cases hcond : lastVersionOf (b :: bs) ≤ offset ∧ ¬ offset < b.version
      · rw [syncLoop_continue lim cap ok fuel remaining offset callIdx b bs hb hcond]
          at hcompl ⊢
        exact syncLoop_calls_writes_count lim cap ok fuel _ offset callIdx hflen hcompl
      · cases hok : ok callIdx with
        | true =>
          rw [syncLoop_dispatch_ok lim cap ok fuel remaining offset callIdx b bs hb
            hcond hok] at hcompl ⊢
          simp only [List.length_cons]
          have := syncLoop_calls_writes_count lim cap ok fuel
            (remaining.drop (min lim cap)) (lastVersionOf (sendSlice offset b bs))
            (callIdx + 1) hflen hcompl
          omega
        | false =>
          rw [syncLoop_dispatch_fail lim cap ok fuel remaining offset callIdx b bs hb
            hcond hok]
          rfl

theorem syncLoop_flatten_filter (lim cap : Nat) (hmin : 1 ≤ min lim cap) :
    ∀ (fuel : Nat) (remaining : List VersionedOperation) (offset callIdx : Nat),
      remaining.length < fuel → remaining.Pairwise VLt →
      (syncLoop lim cap (fun _ => true) fuel remaining offset callIdx).calls.flatten
        = remaining.filter (fun op => decide (offset < op.version))
  | 0, remaining, offset, callIdx, hf, _ => by omega
  | fuel + 1, remaining, offset, callIdx, hf, hp => by
    cases hb : remaining.take (min lim cap) with
    | nil =>
      have hnil : remaining = [] := by
        rcases List.take_eq_nil_iff.mp hb with h | h
        · omega
        · exact h
      subst hnil
      rw [syncLoop_nil lim cap _ fuel [] offset callIdx hb]
      rfl
    | cons b bs =>
      obtain ⟨hsplit, hlen⟩ := take_cons_facts hb
      have hrest_p : (remaining.drop (min lim cap)).Pairwise VLt := by
        rw [hsplit] at hp
        exact (List.pairwise_append.mp hp).2.1
      have hbatch_p : (b :: bs).Pairwise VLt := by
        rw [hsplit] at hp
        exact (List.pairwise_append.mp hp).1
      have hcross : ∀ a ∈ b :: bs, ∀ x ∈ remaining.drop (min lim cap), VLt a x := by
        rw [hsplit] at hp
        exact (List.pairwise_append.mp hp).2.2
      have hflen : (remaining.drop (min lim cap)).length < fuel := by omega
      by_cases hcond : lastVersionOf (b :: bs) ≤ offset ∧ ¬ offset < b.version
      · rw [syncLoop_continue lim cap _ fuel remaining offset callIdx b bs hb hcond,
          syncLoop_flatten_filter lim cap hmin fuel _ offset callIdx hflen hrest_p]
        conv_rhs => rw [hsplit]
        rw [List.filter_append]
        have hbatch_nil :
            (b :: bs).filter (fun op => decide (offset < op.version)) = [] := by
          apply List.filter_eq_nil_iff.mpr
          intro a ha
          have := le_lastVersionOf b bs hbatch_p a ha
          simp only [decide_eq_true_eq]
          omega
        rw [hbatch_nil, List.nil_append]
      · have hlt : offset < lastVersionOf (b :: bs) :=
          dispatch_offset_lt_last offset b bs hbatch_p hcond
        have hw : lastVersionOf (sendSlice offset b bs) = lastVersionOf (b :: bs) :=
          lastVersionOf_sendSlice offset b bs
        rw [syncLoop_dispatch_ok lim cap _ fuel remaining offset callIdx b bs hb
          hcond rfl]
        simp only [List.flatten_cons]
        rw [syncLoop_flatten_filter lim cap hmin fuel _
          (lastVersionOf (sendSlice offset b bs)) (callIdx + 1) hflen hrest_p]
        rw [hw]
        conv_rhs => rw [hsplit]
        rw [List.filter_append]
        rw [sendSlice_eq_filter offset b bs hbatch_p hlt]
        have hrest_gt : ∀ x ∈ remaining.drop (min lim cap),
            lastVersionOf (b :: bs) < x.version := by
          intro x hx
          obtain ⟨a, ha, hav⟩ := lastVersionOf_mem b bs
          have : a.version < x.version := hcross a ha x hx
          omega
        have h1 : (remaining.drop (min lim cap)).filter
            (fun op => decide (lastVersionOf (b :: bs) < op.version))
            = remaining.drop (min lim cap) := by
          apply List.filter_eq_self.mpr
          intro a ha
          simp only [decide_eq_true_eq]
          exact hrest_gt a ha
        have h2 : (remaining.drop (min lim cap)).filter
            (fun op => decide (offset < op.version))
            = remaining.drop (min lim cap) := by
          apply List.filter_eq_self.mpr
          intro a ha
          have := hrest_gt a ha
          simp only [decide_eq_true_eq]
          omega
        rw [h1, h2]

/-! ## Claim theorems for the synchronizer -/

/-- C3: for a queue with strictly increasing versions and any starting
persisted offset `k`, the records dispatched to `execute_operations` across
the whole pass are exactly the queue records with `version > k` — records
with `version ≤ k` are never re-sent — so re-invocation after a crash that
confirmed a prefix up to version `k` completes exactly the rest. -/
theorem sync_dispatches_exactly_unacknowledged (lim cap k : Nat)
    (q : List VersionedOperation) (hl : 1 ≤ lim) (hc : 1 ≤ cap)
    (hq : q.Pairwise VLt) :
    (sync_experiment lim cap (fun _ => true) q (some k)).calls.flatten
        = q.filter (fun op => decide (k < op.version)) ∧
    ∀ c ∈ (sync_experiment lim cap (fun _ => true) q (some k)).calls,
      ∀ op ∈ c, k < op.version := by
  have hmin : 1 ≤ min lim cap := le_min hl hc
  have h1 := syncLoop_flatten_filter lim cap hmin (q.length + 1) q k 0
    (Nat.lt_succ_self _) hq
  refine ⟨h1, ?_⟩
  intro c hcmem op hop
  have hopmem : op ∈ (sync_experiment lim cap (fun _ => true) q (some k)).calls.flatten :=
    List.mem_flatten.mpr ⟨c, hcmem, hop⟩
  have h2 : op ∈ q.filter (fun op => decide (k < op.version)) := by
    rw [← h1]
    exact hopmem
  have := (List.mem_filter.mp h2).2
  simpa using this

/-- Witness for C3 at a concrete queue `[1,2,3]` with starting offset 1. -/
theorem sync_dispatches_exactly_unacknowledged_witness :
    (1 ≤ 1000 ∧ 1 ≤ 2 ∧
      ([⟨1, 11⟩, ⟨2, 12⟩, ⟨3, 13⟩] : List VersionedOperation).Pairwise VLt) ∧
    (sync_experiment 1000 2 (fun _ => true) [⟨1, 11⟩, ⟨2, 12⟩, ⟨3, 13⟩]
        (some 1)).calls.flatten
      = List.filter (fun op => decide (1 < op.version)) [⟨1, 11⟩, ⟨2, 12⟩, ⟨3, 13⟩] :=
  ⟨⟨by decide, by decide, by decide⟩,
    (sync_dispatches_exactly_unacknowledged 1000 2 1 [⟨1, 11⟩, ⟨2, 12⟩, ⟨3, 13⟩]
      (by decide) (by decide) (by decide)).1⟩

/-- C4: if an `execute_operations` call raises during a pass, that pass
aborts with one more dispatch than offset writes (the failed dispatch wrote
nothing, so the persisted offset stays at the last successfully persisted
value), and a subsequent pass resumes exactly from the persisted offset:
it dispatches exactly the records whose version exceeds it. -/
theorem sync_failure_preserves_offset (lim cap : Nat) (ok : Nat → Bool)
    (q : List VersionedOperation) (file : Option Nat)
    (hl : 1 ≤ lim) (hc : 1 ≤ cap) (hq : q.Pairwise VLt) :
    ((sync_experiment lim cap ok q file).completed = false →
      (sync_experiment lim cap ok q file).calls.length
        = (sync_experiment lim cap ok q file).writes.length + 1) ∧
    (sync_experiment lim cap (fun _ => true) q
        (persistedAfter file (sync_experiment lim cap ok q file))).calls.flatten
      = q.filter (fun op =>
          decide ((persistedAfter file (sync_experiment lim cap ok q file)).getD 0
            < op.version)) := by
  constructor
  · exact syncLoop_calls_writes_count lim cap ok (q.length + 1) q (file.getD 0) 0
      (Nat.lt_succ_self _)
  · have hmin : 1 ≤ min lim cap := le_min hl hc
    exact syncLoop_flatten_filter lim cap hmin (q.length + 1) q
      ((persistedAfter file (sync_experiment lim cap ok q file)).getD 0) 0
      (Nat.lt_succ_self _) hq

/-- Witness for C4: the backend succeeds on call 0 and raises on call 1. -/
theorem sync_failure_preserves_offset_witness :
    (1 ≤ 1000 ∧ 1 ≤ 2 ∧
      ([⟨1, 1⟩, ⟨2, 2⟩, ⟨3, 3⟩] : List VersionedOperation).Pairwise VLt) ∧
    (sync_experiment 1000 2 (fun i => i == 0) [⟨1, 1⟩, ⟨2, 2⟩, ⟨3, 3⟩]
        none).completed = false ∧
    (sync_experiment 1000 2 (fun _ => true) [⟨1, 1⟩, ⟨2, 2⟩, ⟨3, 3⟩]
        (persistedAfter none
          (sync_experiment 1000 2 (fun i => i == 0)
            [⟨1, 1⟩, ⟨2, 2⟩, ⟨3, 3⟩] none))).calls.flatten
      = List.filter (fun op =>
          decide ((persistedAfter none
            (sync_experiment 1000 2 (fun i => i == 0)
              [⟨1, 1⟩, ⟨2, 2⟩, ⟨3, 3⟩] none)).getD 0 < op.version))
          [⟨1, 1⟩, ⟨2, 2⟩, ⟨3, 3⟩] :=
  ⟨⟨by decide, by decide, by decide⟩, by decide,
    (sync_failure_preserves_offset 1000 2 (fun i => i == 0)
      [⟨1, 1⟩, ⟨2, 2⟩, ⟨3, 3⟩] none (by decide) (by decide) (by decide)).2⟩

/-- C5: for a queue with strictly increasing versions, every offset value
written during a pass is strictly greater than the offset in effect when it
is written (the chain starting at the initial offset is strictly
increasing), for an arbitrary pattern of backend successes and failures —
so the persisted offset never regresses, and the value persisted after the
pass is at least the starting one. -/
theorem sync_offset_monotone (lim cap : Nat) (ok : Nat → Bool)
    (q : List VersionedOperation) (file : Option Nat) (hq : q.Pairwise VLt) :
    List.Chain' (· < ·)
      (file.getD 0 :: (sync_experiment lim cap ok q file).writes) ∧
    file.getD 0 ≤ (persistedAfter file (sync_experiment lim cap ok q file)).getD 0 := by
  have hchain := syncLoop_writes_chain lim cap ok (q.length + 1) q (file.getD 0) 0
    (Nat.lt_succ_self _) hq
  refine ⟨hchain, ?_⟩
  cases hlast : (sync_experiment lim cap ok q file).writes.getLast? with
  | none => simp [persistedAfter, hlast]
  | some w =>
    have hw_mem : w ∈ (sync_experiment lim cap ok q file).writes :=
      mem_of_getLast?_nat hlast
    have hlt := chain_lt_all hchain w hw_mem
    simp only [persistedAfter, hlast, Option.getD_some]
    omega

/-- Witness for C5: a pass whose second backend call fails. -/
theorem sync_offset_monotone_witness :
    ([⟨1, 1⟩, ⟨2, 2⟩, ⟨3, 3⟩] : List VersionedOperation).Pairwise VLt ∧
    List.Chain' (· < ·)
      ((some 0 : Option Nat).getD 0 ::
        (sync_experiment 1000 2 (fun i => i == 0)
          [⟨1, 1⟩, ⟨2, 2⟩, ⟨3, 3⟩] (some 0)).writes) ∧
    (some 0 : Option Nat).getD 0
      ≤ (persistedAfter (some 0)
          (sync_experiment 1000 2 (fun i => i == 0)
            [⟨1, 1⟩, ⟨2, 2⟩, ⟨3, 3⟩] (some 0))).getD 0 :=
  ⟨by decide,
    (sync_offset_monotone 1000 2 (fun i => i == 0)
      [⟨1, 1⟩, ⟨2, 2⟩, ⟨3, 3⟩] (some 0) (by decide)).1,
    (sync_offset_monotone 1000 2 (fun i => i == 0)
      [⟨1, 1⟩, ⟨2, 2⟩, ⟨3, 3⟩] (some 0) (by decide)).2⟩

/-- Witness for C10 at a concrete queue. -/
theorem sync_absent_offset_eq_zero_offset_witness :
    sync_experiment 1000 2 (fun _ => true) [⟨1, 1⟩] none
      = sync_experiment 1000 2 (fun _ => true) [⟨1, 1⟩] (some 0) :=
  sync_absent_offset_eq_zero_offset 1000 2 (fun _ => true) [⟨1, 1⟩]

/-! ## Synchronized-detection (C1) -/

theorem lastOperation_cons_cons (x y : VersionedOperation)
    (ys : List VersionedOperation) :
    lastOperation (x :: y :: ys) = lastOperation (y :: ys) := rfl

theorem lastOperation_eq_getLast? : ∀ (l : List VersionedOperation),
    lastOperation l = l.getLast?
  | [] => rfl
  | [x] => rfl
  | x :: y :: ys => by
    rw [lastOperation_cons_cons, List.getLast?_cons_cons,
      lastOperation_eq_getLast? (y :: ys)]

/-- C1 counterexample: a run that never logged anything — empty queue, no
offset file — is reported as NOT synchronized by the source
(`is_experiment_synced` returns `False` whenever the offset file is
absent), while the claimed predicate reports it as synchronized. -/
theorem is_synced_claim_counterexample :
    is_experiment_synced none [] = false ∧ is_synchronized_claim none [] = true :=
  ⟨rfl, rfl⟩

/-- C1 (amended): `is_experiment_synced` returns true iff an offset file
exists and either the queue is empty or the persisted offset is at least
(not necessarily equal to) the version of the last record; in particular a
run with an empty queue and no offset file is reported as NOT
synchronized. -/
theorem is_experiment_synced_iff (file : Option Nat) (q : List VersionedOperation) :
    is_experiment_synced file q = true ↔
      ∃ off, file = some off ∧
        (q = [] ∨ ∃ l, q.getLast? = some l ∧ l.version ≤ off) := by
  cases file with
  | none =>
    simp [is_experiment_synced]
  | some off =>
    simp only [is_experiment_synced, lastOperation_eq_getLast?]
    cases hq : q.getLast? with
    | none =>
      have hnil : q = [] := List.getLast?_eq_none_iff.mp hq
      subst hnil
      simp
    | some l =>
      have hne : q ≠ [] := by
        intro h
        subst h
        simp at hq
      simp only [decide_eq_true_eq]
      constructor
      · intro h
        exact ⟨off, rfl, Or.inr ⟨l, rfl, h⟩⟩
      · rintro ⟨off', hoff, h⟩
        injection hoff with hoff
        subst hoff
        rcases h with rfl | ⟨l', hl', hle⟩
        · simp at hq
        · injection hl' with hl'
          subst hl'
          exact hle

/-- Witness for C1 (amended) at a concrete synced run: offset 2, last
record version 2. -/
theorem is_experiment_synced_iff_witness :
    is_experiment_synced (some 2) [⟨1, 0⟩, ⟨2, 0⟩] = true :=
  (is_experiment_synced_iff (some 2) [⟨1, 0⟩, ⟨2, 0⟩]).mpr
    ⟨2, rfl, Or.inr ⟨⟨2, 0⟩, by decide, by decide⟩⟩

/-! ## Selection and routing (C7) -/

theorem register_ok_of_create_some (p : ProjectRec)
    (create : Nat → Option (String × String))
    (h : ∀ n, (create n).isSome = true) :
    ∀ (ids : List String) (n : Nat),
      ∃ exps moves, register_offline_experiments p create ids n = .ok exps moves
  | [], _ => ⟨[], [], rfl⟩
  | id :: rest, n => by
    obtain ⟨u, hu⟩ : ∃ x, create n = some x := Option.isSome_iff_exists.mp (h n)
    obtain ⟨exps, moves, hrec⟩ := register_ok_of_create_some p create h rest (n + 1)
    obtain ⟨u1, u2⟩ := u
    refine ⟨⟨u1, u2, p.workspace, p.name⟩ :: exps,
      (id, u1) :: moves, ?_⟩
    rw [register_offline_experiments, hu]
    simp only [register_offline_experiment]
    rw [hrec]

/-- C7: under a successfully responding create endpoint, a reference is
routed to offline registration iff it parses as a UUID and a directory of
that name exists in the offline namespace; the invocation does not abort;
the registered-run pass processes every non-offline reference (the pass
over them is an unchanged initial segment of the full pass), and each
non-offline reference — including those whose lookup fails or whose local
directory is missing — appears in the pass with its own independent
outcome. -/
theorem selected_routing (isUUID offlineDirExists : String → Bool) (p : ProjectRec)
    (create : Nat → Option (String × String))
    (backendLookup : String → LookupOutcome) (dirExists : String → Bool)
    (names : List String) (hcreate : ∀ n, (create n).isSome = true) :
    (sync_selected_experiments isUUID offlineDirExists (some p) create backendLookup
        dirExists names).offlineRouted
      = names.filter (fun n => isUUID n && offlineDirExists n) ∧
    (sync_selected_experiments isUUID offlineDirExists (some p) create backendLookup
        dirExists names).crashed = false ∧
    (∃ extra, (sync_selected_experiments isUUID offlineDirExists (some p) create
        backendLookup dirExists names).registeredPass
      = sync_selected_registered_experiments backendLookup dirExists
          (names.filter (fun n => ! (isUUID n && offlineDirExists n))) ++ extra) ∧
    (∀ name ∈ names, (isUUID name && offlineDirExists name) = false →
      (name, regAction backendLookup dirExists name)
        ∈ (sync_selected_experiments isUUID offlineDirExists (some p) create
            backendLookup dirExists names).registeredPass) := by
  have hmem_others : ∀ name ∈ names, (isUUID name && offlineDirExists name) = false →
      name ∈ names.filter
        (fun n => ! references_offline_experiment isUUID offlineDirExists n) := by
    intro name hname hfalse
    apply List.mem_filter.mpr
    refine ⟨hname, ?_⟩
    simp only [references_offline_experiment, hfalse, Bool.not_false]
  by_cases hempty :
      (names.filter (references_offline_experiment isUUID offlineDirExists)).isEmpty
  · have hres : sync_selected_experiments isUUID offlineDirExists (some p) create
        backendLookup dirExists names
        = ⟨names.filter (references_offline_experiment isUUID offlineDirExists), none,
            sync_selected_registered_experiments backendLookup dirExists
              (names.filter
                (fun n => ! references_offline_experiment isUUID offlineDirExists n)),
            false⟩ := by
      simp only [sync_selected_experiments]
      rw [if_pos hempty]
    rw [hres]
    refine ⟨rfl, rfl, ⟨[], (List.append_nil _).symm⟩, ?_⟩
    intro name hname hfalse
    exact List.mem_map_of_mem
      (fun n => (n, regAction backendLookup dirExists n))
      (hmem_others name hname hfalse)
  · obtain ⟨exps, moves, hok⟩ := register_ok_of_create_some p create hcreate
      (names.filter (references_offline_experiment isUUID offlineDirExists)) 0
    have hres : sync_selected_experiments isUUID offlineDirExists (some p) create
        backendLookup dirExists names
        = ⟨names.filter (references_offline_experiment isUUID offlineDirExists),
            some (.ok exps moves),
            sync_selected_registered_experiments backendLookup dirExists
              (names.filter
                (fun n => ! references_offline_experiment isUUID offlineDirExists n)
                ++ exps.map get_qualified_name),
            false⟩ := by
      simp only [sync_selected_experiments]
      rw [if_neg hempty, hok]
    rw [hres]
    refine ⟨rfl, rfl, ?_, ?_⟩
    · refine ⟨sync_selected_registered_experiments backendLookup dirExists
        (exps.map get_qualified_name), ?_⟩
      simp only [sync_selected_registered_experiments, List.map_append]
      rfl
    · intro name hname hfalse
      simp only [sync_selected_registered_experiments, List.map_append]
      apply List.mem_append_left
      exact List.mem_map_of_mem
        (fun n => (n, regAction backendLookup dirExists n))
        (hmem_others name hname hfalse)

/-- Witness for C7: one offline reference, one registered reference whose
lookup succeeds, and one unresolvable reference that is skipped. -/
theorem selected_routing_witness :
    (sync_selected_experiments
        (fun s => s == "11111111-1111-1111-1111-111111111111")
        (fun s => s == "11111111-1111-1111-1111-111111111111")
        (some ⟨"proj-u", "ws", "proj"⟩)
        (fun _ => some ("srv-uuid-1", "S-9"))
        (fun s => if s == "ws/proj/S-2"
          then .found ⟨"reg-uuid", "S-2", "ws", "proj"⟩ else .httpError 404)
        (fun s => s == "reg-uuid")
        ["11111111-1111-1111-1111-111111111111", "ws/proj/S-2", "ghost"]).offlineRouted
      = List.filter
          (fun n => (n == "11111111-1111-1111-1111-111111111111")
            && (n == "11111111-1111-1111-1111-111111111111"))
          ["11111111-1111-1111-1111-111111111111", "ws/proj/S-2", "ghost"] ∧
    (sync_selected_experiments
        (fun s => s == "11111111-1111-1111-1111-111111111111")
        (fun s => s == "11111111-1111-1111-1111-111111111111")
        (some ⟨"proj-u", "ws", "proj"⟩)
        (fun _ => some ("srv-uuid-1", "S-9"))
        (fun s => if s == "ws/proj/S-2"
          then .found ⟨"reg-uuid", "S-2", "ws", "proj"⟩ else .httpError 404)
        (fun s => s == "reg-uuid")
        ["11111111-1111-1111-1111-111111111111", "ws/proj/S-2", "ghost"]).crashed
      = false :=
  ⟨(selected_routing
      (fun s => s == "11111111-1111-1111-1111-111111111111")
      (fun s => s == "11111111-1111-1111-1111-111111111111")
      ⟨"proj-u", "ws", "proj"⟩
      (fun _ => some ("srv-uuid-1", "S-9"))
      (fun s => if s == "ws/proj/S-2"
        then .found ⟨"reg-uuid", "S-2", "ws", "proj"⟩ else .httpError 404)
      (fun s => s == "reg-uuid")
      ["11111111-1111-1111-1111-111111111111", "ws/proj/S-2", "ghost"]
      (fun _ => rfl)).1,
    (selected_routing
      (fun s => s == "11111111-1111-1111-1111-111111111111")
      (fun s => s == "11111111-1111-1111-1111-111111111111")
      ⟨"proj-u", "ws", "proj"⟩
      (fun _ => some ("srv-uuid-1", "S-9"))
      (fun s => if s == "ws/proj/S-2"
        then .found ⟨"reg-uuid", "S-2", "ws", "proj"⟩ else .httpError 404)
      (fun s => s == "reg-uuid")
      ["11111111-1111-1111-1111-111111111111", "ws/proj/S-2", "ghost"]
      (fun _ => rfl)).2.1⟩

/-! ## Offline-to-registered move atomicity (C8) -/

/-- C8: the relocation performed by `move_offline_experiment` is a single
rename: afterwards the run's content is gone from the offline namespace and
present under the registered namespace — exactly one of the two — with its
disk queue and sync-offset content unchanged, and no other directory entry
in either namespace is affected. -/
theorem move_offline_experiment_atomic (fs : FileSystem) (ou su : String)
    (d : RunDir) (hsrc : fs.offline ou = some d) :
    (move_offline_experiment fs ou su).offline ou = none ∧
    (move_offline_experiment fs ou su).registered su = some d ∧
    (∃ d', (move_offline_experiment fs ou su).registered su = some d' ∧
      d'.queue = d.queue ∧ d'.offsetFile = d.offsetFile) ∧
    (∀ n, n ≠ ou → (move_offline_experiment fs ou su).offline n = fs.offline n) ∧
    (∀ n, n ≠ su → (move_offline_experiment fs ou su).registered n = fs.registered n) := by
  refine ⟨?_, ?_, ⟨d, ?_, rfl, rfl⟩, ?_, ?_⟩
  · simp [move_offline_experiment]
  · simp [move_offline_experiment, hsrc]
  · simp [move_offline_experiment, hsrc]
  · intro n hn
    simp [move_offline_experiment, hn]
  · intro n hn
    simp [move_offline_experiment, hn]

/-- Witness for C8 on a concrete two-namespace filesystem. -/
theorem move_offline_experiment_atomic_witness :
    (FileSystem.offline
        ⟨fun n => if n = "off-1" then some ⟨[⟨1, 7⟩], some 1⟩ else none,
          fun _ => none⟩ "off-1" = some ⟨[⟨1, 7⟩], some 1⟩) ∧
    (move_offline_experiment
        ⟨fun n => if n = "off-1" then some ⟨[⟨1, 7⟩], some 1⟩ else none,
          fun _ => none⟩ "off-1" "srv-1").offline "off-1" = none ∧
    (move_offline_experiment
        ⟨fun n => if n = "off-1" then some ⟨[⟨1, 7⟩], some 1⟩ else none,
          fun _ => none⟩ "off-1" "srv-1").registered "srv-1" = some ⟨[⟨1, 7⟩], some 1⟩ :=
  ⟨by decide,
    (move_offline_experiment_atomic
      ⟨fun n => if n = "off-1" then some ⟨[⟨1, 7⟩], some 1⟩ else none, fun _ => none⟩
      "off-1" "srv-1" ⟨[⟨1, 7⟩], some 1⟩ (by decide)).1,
    (move_offline_experiment_atomic
      ⟨fun n => if n = "off-1" then some ⟨[⟨1, 7⟩], some 1⟩ else none, fun _ => none⟩
      "off-1" "srv-1" ⟨[⟨1, 7⟩], some 1⟩ (by decide)).2.1⟩

/-! ## Authorization and not-found lookup errors (C9) -/

theorem get_experiment_auth_error (backendLookup : String → LookupOutcome)
    (name : String) (c : Nat) (hlook : backendLookup name = .httpError c)
    (hcode : c = 401 ∨ c = 403 ∨ c = 404) :
    get_experiment backendLookup name = ⟨none, some (c, true)⟩ := by
  simp only [get_experiment, hlook]
  rw [if_pos hcode]

/-- C9: when the backend lookup of a run fails with HTTP status 401, 403 or
404, `sync_all_registered_experiments` records that run as skipped with the
"skipping" warning (it does not raise), and every other directory under the
location is still processed — the pass visits exactly the original
directory list. -/
theorem lookup_error_skips_run (isUUID : String → Bool)
    (backendLookup : String → LookupOutcome) (dirs : List (String × RunDir))
    (name : String) (d : RunDir) (c : Nat)
    (hmem : (name, d) ∈ dirs) (hu : isUUID name = true)
    (hns : is_experiment_synced d.offsetFile d.queue = false)
    (hlook : backendLookup name = .httpError c)
    (hcode : c = 401 ∨ c = 403 ∨ c = 404) :
    (name, AllSyncAction.lookupSkipped (some (c, true)))
        ∈ sync_all_registered_experiments isUUID backendLookup dirs ∧
    (sync_all_registered_experiments isUUID backendLookup dirs).map Prod.fst
      = dirs.map Prod.fst := by
  constructor
  · apply List.mem_map.mpr
    refine ⟨(name, d), hmem, ?_⟩
    simp only
    rw [hu, hns]
    simp only [Bool.not_false, Bool.and_self]
    rw [get_experiment_auth_error backendLookup name c hlook hcode]
    simp
  · rw [sync_all_registered_experiments, List.map_map]
    rfl

/-- Witness for C9: the first of two runs fails its lookup with 404; both
directories are still visited. -/
theorem lookup_error_skips_run_witness :
    (("run-a", (⟨[⟨1, 3⟩], some 0⟩ : RunDir))
        ∈ [("run-a", (⟨[⟨1, 3⟩], some 0⟩ : RunDir)),
           ("run-b", (⟨[⟨1, 4⟩], none⟩ : RunDir))]) ∧
    ("run-a", AllSyncAction.lookupSkipped (some (404, true)))
        ∈ sync_all_registered_experiments (fun _ => true)
            (fun s => if s = "run-a" then .httpError 404
              else .found ⟨"run-b", "S-2", "org", "proj"⟩)
            [("run-a", ⟨[⟨1, 3⟩], some 0⟩), ("run-b", ⟨[⟨1, 4⟩], none⟩)] ∧
    (sync_all_registered_experiments (fun _ => true)
        (fun s => if s = "run-a" then .httpError 404
          else .found ⟨"run-b", "S-2", "org", "proj"⟩)
        [("run-a", ⟨[⟨1, 3⟩], some 0⟩), ("run-b", ⟨[⟨1, 4⟩], none⟩)]).map Prod.fst
      = [("run-a", (⟨[⟨1, 3⟩], some 0⟩ : RunDir)),
         ("run-b", (⟨[⟨1, 4⟩], none⟩ : RunDir))].map Prod.fst :=
  ⟨by decide,
    (lookup_error_skips_run (fun _ => true)
      (fun s => if s = "run-a" then .httpError 404
        else .found ⟨"run-b", "S-2", "org", "proj"⟩)
      [("run-a", ⟨[⟨1, 3⟩], some 0⟩), ("run-b", ⟨[⟨1, 4⟩], none⟩)]
      "run-a" ⟨[⟨1, 3⟩], some 0⟩ 404 (by decide) rfl (by decide) (by decide)
      (Or.inr (Or.inr rfl))).1,
    (lookup_error_skips_run (fun _ => true)
      (fun s => if s = "run-a" then .httpError 404
        else .found ⟨"run-b", "S-2", "org", "proj"⟩)
      [("run-a", ⟨[⟨1, 3⟩], some 0⟩), ("run-b", ⟨[⟨1, 4⟩], none⟩)]
      "run-a" ⟨[⟨1, 3⟩], some 0⟩ 404 (by decide) rfl (by decide) (by decide)
      (Or.inr (Or.inr rfl))).2⟩
